import Mathlib

/-!
Shallow embedding of `compress_pdf` from `scripts/reduce_pdf_size.py`.

The function performs a bounded binary search over image-quality values,
invoking an external codec (pikepdf) once per trial, retaining at most one
"best" (under the tolerance ceiling) and one "fallback" (over the ceiling)
candidate, and finally promoting one candidate to the output path.

Embedding choices:
- File sizes and quality values are `Nat` (Python non-negative ints in all
  reachable states; the quality range is validated to `[1, 100]` before the
  loop runs).
- `tolerance` is `ℚ` (Python float; the spec's tolerance arithmetic like
  `500000 * 1.05 = 525000` is exact rational arithmetic).
- The codec (`pikepdf.open` + `save` at a quality, then `stat` of the temp
  file) is a parameter `Codec : Nat → Except String Nat`: from a quality,
  the size of the produced artifact, or a failure cause (`pikepdf.PdfError`).
- Temporary files are identified by the index of the trial that created
  them; the `live` field tracks which temp files currently exist on disk
  (`tempfile.NamedTemporaryFile(delete=False)` creates, `unlink` removes,
  `shutil.move` removes the source).
- `calls` records the qualities passed to the codec, in order.
-/

namespace ReducePdf

/-- One produced candidate: the temp-file identity (trial index), the
quality it was produced at, and its observed size in bytes. -/
structure Cand where
  id : Nat
  quality : Nat
  size : Nat
deriving DecidableEq

/-- The error outcomes of `compress_pdf`:
`FileNotFoundError` (line 87), the two `ValueError`s for a bad budget
(lines 90 and 93), the `RuntimeError` wrapping a `pikepdf.PdfError`
(line 126), and the `RuntimeError` at line 165. -/
inductive CompressError where
  | inputNotFound
  | invalidBudget
  | codecFailure (cause : String)
  | noCandidateProduced
deriving DecidableEq

/-- The external codec: quality level to produced-artifact size, or failure. -/
def Codec := Nat → Except String Nat

/-- Line 132: the test `size <= target_size * (1 + tolerance)`, computed in
exact integer arithmetic on the numerator and denominator of the tolerance
(`passes_iff` below proves it equal to the rational inequality of the
source). -/
def passes (target : Nat) (tol : ℚ) (size : Nat) : Bool :=
  decide ((size : ℤ) * (tol.den : ℤ) ≤ (target : ℤ) * ((tol.den : ℤ) + tol.num))

/-- `passes` decides exactly the source's inequality
`size ≤ target * (1 + tolerance)` over the rationals. -/
theorem passes_iff (target : Nat) (tol : ℚ) (size : Nat) :
    passes target tol size = true ↔ (size : ℚ) ≤ (target : ℚ) * (1 + tol) := by
  unfold passes
  rw [decide_eq_true_eq]
  have hden : (0 : ℚ) < (tol.den : ℚ) := by exact_mod_cast tol.den_pos
  have hnd := Rat.num_div_den tol
  have hmul : tol * (tol.den : ℚ) = (tol.num : ℚ) := by
    have h2 : ((tol.num : ℚ) / (tol.den : ℚ)) * (tol.den : ℚ) = (tol.num : ℚ) :=
      div_mul_cancel₀ _ hden.ne'
    rw [hnd] at h2
    exact h2
  have hkey : (target : ℚ) * (1 + tol) * (tol.den : ℚ) =
      (target : ℚ) * ((tol.den : ℚ) + (tol.num : ℚ)) := by
    calc (target : ℚ) * (1 + tol) * (tol.den : ℚ)
        = (target : ℚ) * ((tol.den : ℚ) + tol * (tol.den : ℚ)) := by ring
      _ = (target : ℚ) * ((tol.den : ℚ) + (tol.num : ℚ)) := by rw [hmul]
  have hiff : ((size : ℚ) * (tol.den : ℚ) ≤ (target : ℚ) * (1 + tol) * (tol.den : ℚ)) ↔
      ((size : ℚ) ≤ (target : ℚ) * (1 + tol)) := mul_le_mul_right hden
  rw [← hiff, hkey]
  constructor <;> intro h <;> exact_mod_cast h

/-- State of the search loop (lines 101-153): the shrinking quality
interval, the iteration counter, the two ledger slots with their sizes
(the Python code keeps `best_candidate`/`best_candidate_size` and
`fallback_result`/`fallback_result_size` in lockstep, so each pair is one
`Option Cand`), the running `reached_target` flag, the set of live temp
files and the trace of codec calls. -/
structure LoopState where
  low : Nat
  high : Nat
  iterations : Nat
  best : Option Cand
  fallback : Option Cand
  reached : Bool
  live : List Nat
  calls : List Nat
deriving DecidableEq

/-- `Path.unlink(missing_ok=True)` on a temp file id. -/
def unlinkTemp (live : List Nat) (id : Nat) : List Nat :=
  live.filter (fun x => x ≠ id)

/-- Lines 132-140: the passing branch. `size <= target_size * (1 + tolerance)`
holds. Returns the updated state and the `keep_temp` flag. Python's
`size > (best_candidate_size or 0)` equals `size > best.size` whether or not
`best.size` is zero. -/
def offerPassing (target : Nat) (s : LoopState) (cand : Cand) :
    LoopState × Bool :=
  let (s1, keep) :=
    match s.best with
    | none => ({ s with best := some cand }, true)
    | some b =>
      if b.size < cand.size then
        ({ s with live := unlinkTemp s.live b.id, best := some cand }, true)
      else (s, false)
  ({ s1 with reached := decide (cand.size ≤ target), low := cand.quality + 1 }, keep)

/-- Lines 144-153: the fallback offer (`if not keep_temp and best_candidate
is None`) followed by the final cleanup (`if not keep_temp: unlink`). -/
def offerFallbackAndCleanup (s : LoopState) (cand : Cand) (keep : Bool) :
    LoopState :=
  let (s1, keep1) :=
    if keep = false ∧ s.best = none then
      match s.fallback with
      | none => ({ s with fallback := some cand }, true)
      | some f =>
        if cand.size < f.size then
          ({ s with live := unlinkTemp s.live f.id, fallback := some cand }, true)
        else (s, keep)
    else (s, keep)
  if keep1 then s1 else { s1 with live := unlinkTemp s1.live cand.id }

/-- One pass of the while body (lines 111-153), entered with `low ≤ high`
already checked. On a codec error the temp file of the failing trial is
unlinked (line 125) and the loop aborts with the cause and the state at
that moment. -/
def loopBody (codec : Codec) (target : Nat) (tol : ℚ) (s : LoopState) :
    Except (String × LoopState) LoopState :=
  let q := (s.low + s.high) / 2
  let id := s.iterations
  let s1 := { s with
    iterations := s.iterations + 1
    calls := s.calls ++ [q]
    live := s.live ++ [id] }
  match codec q with
  | .error e => .error (e, { s1 with live := unlinkTemp s1.live id })
  | .ok size =>
    let cand : Cand := ⟨id, q, size⟩
    if passes target tol size then
      let (s2, keep) := offerPassing target s1 cand
      .ok (offerFallbackAndCleanup s2 cand keep)
    else
      .ok (offerFallbackAndCleanup { s1 with high := q - 1 } cand false)

/-- The while loop (line 110): `while low <= high and iterations < max_iterations`.
The fuel is `max_iterations - iterations`, so the fuel is positive exactly
when `iterations < max_iterations`. -/
def searchLoop (codec : Codec) (target : Nat) (tol : ℚ) :
    Nat → LoopState → Except (String × LoopState) LoopState
  | 0, s => .ok s
  | fuel + 1, s =>
    if s.low ≤ s.high then
      match loopBody codec target tol s with
      | .error e => .error e
      | .ok s1 => searchLoop codec target tol fuel s1
    else .ok s

instance {ε α : Type} [DecidableEq ε] [DecidableEq α] :
    DecidableEq (Except ε α) := fun a b =>
  match a, b with
  | .error e, .error e' =>
    if h : e = e' then .isTrue (by rw [h]) else .isFalse (by simp [h])
  | .error _, .ok _ => .isFalse (by simp)
  | .ok _, .error _ => .isFalse (by simp)
  | .ok v, .ok v' =>
    if h : v = v' then .isTrue (by rw [h]) else .isFalse (by simp [h])

/-- What ends up at the caller's output path. -/
inductive FileContent where
  | inputCopy
  | artifact (c : Cand)
deriving DecidableEq

/-- The observable outcome of one `compress_pdf` call: the returned value
(the final size and `reached_target`; the output path component of the
returned triple is the constant `output_path`) or the raised error, the
content at the output path (`none` when nothing was produced there), the
temp files still on disk when control returns, and the codec-call trace. -/
structure Outcome where
  result : Except CompressError (Nat × Bool)
  output : Option FileContent
  live : List Nat
  calls : List Nat
deriving DecidableEq

/-- Lines 155-168: select `best` if present, else `fallback`; raise if the
selection is absent or its file does not exist; `shutil.move` the winner to
the output path. Line 168 returns `result_size or output_path.stat().st_size`;
the moved file is the winning artifact, so both branches equal the winner's
size. -/
def finalize (s : LoopState) : Outcome :=
  let chosen : Option Cand :=
    match s.best with
    | some b => some b
    | none => s.fallback
  match chosen with
  | none =>
    { result := .error .noCandidateProduced, output := none
      live := s.live, calls := s.calls }
  | some c =>
    if c.id ∈ s.live then
      { result := .ok (c.size, s.reached)
        output := some (.artifact c)
        live := unlinkTemp s.live c.id
        calls := s.calls }
    else
      { result := .error .noCandidateProduced, output := none
        live := s.live, calls := s.calls }

/-- The initial loop state (lines 101-109): `low, high = min_quality,
max_quality`, counters zero, ledger empty, no temp files, no calls. -/
def initState (minQ maxQ : Nat) : LoopState :=
  { low := minQ, high := maxQ, iterations := 0, best := none,
    fallback := none, reached := false, live := [], calls := [] }

/-- `compress_pdf` (lines 70-168). `inputExists` and `inputSize` embed
`input_path.exists()` and `input_path.stat().st_size`. -/
def compress_pdf (codec : Codec) (inputExists : Bool) (inputSize : Nat)
    (target : Nat) (tol : ℚ) (minQ maxQ maxIter : Nat) : Outcome :=
  if inputExists = false then
    { result := .error .inputNotFound, output := none, live := [], calls := [] }
  else if tol ≤ 0 ∨ 1 ≤ tol then
    { result := .error .invalidBudget, output := none, live := [], calls := [] }
  else if minQ < 1 ∨ 100 < maxQ ∨ maxQ ≤ minQ then
    { result := .error .invalidBudget, output := none, live := [], calls := [] }
  else if inputSize ≤ target then
    { result := .ok (inputSize, true), output := some .inputCopy,
      live := [], calls := [] }
  else
    match searchLoop codec target tol maxIter (initState minQ maxQ) with
    | .error (e, s) =>
      { result := .error (.codecFailure e), output := none,
        live := s.live, calls := s.calls }
    | .ok s => finalize s

/-- The synthetic deterministic codec of the spec's test scenario:
`size(q) = 200000 + 6000 * q`, never failing. -/
def synthCodec : Codec := fun q => .ok (200000 + 6000 * q)

/-! ### Case equations for the ledger helpers -/

theorem offerPassing_of_none (target : Nat) (s : LoopState) (cand : Cand)
    (h : s.best = none) :
    offerPassing target s cand =
      ({ s with best := some cand
                reached := decide (cand.size ≤ target)
                low := cand.quality + 1 }, true) := by
  simp [offerPassing, h]

theorem offerPassing_of_replace (target : Nat) (s : LoopState) (cand : Cand)
    (b : Cand) (h : s.best = some b) (hlt : b.size < cand.size) :
    offerPassing target s cand =
      ({ s with live := unlinkTemp s.live b.id
                best := some cand
                reached := decide (cand.size ≤ target)
                low := cand.quality + 1 }, true) := by
  simp [offerPassing, h, hlt]

theorem offerPassing_of_keep (target : Nat) (s : LoopState) (cand : Cand)
    (b : Cand) (h : s.best = some b) (hlt : ¬ b.size < cand.size) :
    offerPassing target s cand =
      ({ s with reached := decide (cand.size ≤ target)
                low := cand.quality + 1 }, false) := by
  simp [offerPassing, h, hlt]

theorem offerFallbackAndCleanup_of_keep (s : LoopState) (cand : Cand) :
    offerFallbackAndCleanup s cand true = s := by
  simp [offerFallbackAndCleanup]

theorem offerFallbackAndCleanup_of_best (s : LoopState) (cand : Cand)
    (b : Cand) (h : s.best = some b) :
    offerFallbackAndCleanup s cand false =
      { s with live := unlinkTemp s.live cand.id } := by
  simp [offerFallbackAndCleanup, h]

theorem offerFallbackAndCleanup_of_first (s : LoopState) (cand : Cand)
    (hb : s.best = none) (hf : s.fallback = none) :
    offerFallbackAndCleanup s cand false =
      { s with fallback := some cand } := by
  simp [offerFallbackAndCleanup, hb, hf]

theorem offerFallbackAndCleanup_of_smaller (s : LoopState) (cand : Cand)
    (f : Cand) (hb : s.best = none) (hf : s.fallback = some f)
    (hlt : cand.size < f.size) :
    offerFallbackAndCleanup s cand false =
      { s with live := unlinkTemp s.live f.id, fallback := some cand } := by
  simp [offerFallbackAndCleanup, hb, hf, hlt]

theorem offerFallbackAndCleanup_of_larger (s : LoopState) (cand : Cand)
    (f : Cand) (hb : s.best = none) (hf : s.fallback = some f)
    (hlt : ¬ cand.size < f.size) :
    offerFallbackAndCleanup s cand false =
      { s with live := unlinkTemp s.live cand.id } := by
  simp [offerFallbackAndCleanup, hb, hf, hlt]

/-! ### The state after the accounting stage of one iteration -/

/-- The state right after lines 111-114 of one iteration: counter bumped,
call recorded, temp file created. -/
def bumped (s : LoopState) : LoopState :=
  { s with
    iterations := s.iterations + 1
    calls := s.calls ++ [(s.low + s.high) / 2]
    live := s.live ++ [s.iterations] }

/-- The candidate produced by the current iteration when the codec
returns `size`. -/
def trialCand (s : LoopState) (size : Nat) : Cand :=
  ⟨s.iterations, (s.low + s.high) / 2, size⟩

theorem loopBody_of_error (codec : Codec) (target : Nat) (tol : ℚ)
    (s : LoopState) (e : String)
    (h : codec ((s.low + s.high) / 2) = .error e) :
    loopBody codec target tol s =
      .error (e, { bumped s with live := unlinkTemp (bumped s).live s.iterations }) := by
  simp [loopBody, h, bumped]

theorem loopBody_of_pass (codec : Codec) (target : Nat) (tol : ℚ)
    (s : LoopState) (size : Nat)
    (h : codec ((s.low + s.high) / 2) = .ok size)
    (hp : passes target tol size = true) :
    loopBody codec target tol s =
      .ok (offerFallbackAndCleanup
            (offerPassing target (bumped s) (trialCand s size)).1
            (trialCand s size)
            (offerPassing target (bumped s) (trialCand s size)).2) := by
  simp [loopBody, h, hp, bumped, trialCand]

theorem loopBody_of_fail (codec : Codec) (target : Nat) (tol : ℚ)
    (s : LoopState) (size : Nat)
    (h : codec ((s.low + s.high) / 2) = .ok size)
    (hp : passes target tol size = false) :
    loopBody codec target tol s =
      .ok (offerFallbackAndCleanup
            { bumped s with high := (s.low + s.high) / 2 - 1 }
            (trialCand s size) false) := by
  simp [loopBody, h, hp, bumped, trialCand]

/-! ### Field-preservation lemmas -/

theorem offerPassing_preserves (target : Nat) (s : LoopState) (cand : Cand) :
    (offerPassing target s cand).1.high = s.high ∧
    (offerPassing target s cand).1.iterations = s.iterations ∧
    (offerPassing target s cand).1.calls = s.calls ∧
    (offerPassing target s cand).1.fallback = s.fallback := by
  cases hb : s.best with
  | none => rw [offerPassing_of_none target s cand hb]; exact ⟨rfl, rfl, rfl, rfl⟩
  | some b =>
    by_cases hlt : b.size < cand.size
    · rw [offerPassing_of_replace target s cand b hb hlt]; exact ⟨rfl, rfl, rfl, rfl⟩
    · rw [offerPassing_of_keep target s cand b hb hlt]; exact ⟨rfl, rfl, rfl, rfl⟩

theorem offerFallbackAndCleanup_preserves (s : LoopState) (cand : Cand) (keep : Bool) :
    (offerFallbackAndCleanup s cand keep).low = s.low ∧
    (offerFallbackAndCleanup s cand keep).high = s.high ∧
    (offerFallbackAndCleanup s cand keep).iterations = s.iterations ∧
    (offerFallbackAndCleanup s cand keep).calls = s.calls ∧
    (offerFallbackAndCleanup s cand keep).best = s.best ∧
    (offerFallbackAndCleanup s cand keep).reached = s.reached := by
  cases keep with
  | true => rw [offerFallbackAndCleanup_of_keep]; exact ⟨rfl, rfl, rfl, rfl, rfl, rfl⟩
  | false =>
    cases hb : s.best with
    | some b =>
      rw [offerFallbackAndCleanup_of_best s cand b hb]
      exact ⟨rfl, rfl, rfl, rfl, hb, rfl⟩
    | none =>
      cases hf : s.fallback with
      | none =>
        rw [offerFallbackAndCleanup_of_first s cand hb hf]
        exact ⟨rfl, rfl, rfl, rfl, hb, rfl⟩
      | some f =>
        by_cases hlt : cand.size < f.size
        · rw [offerFallbackAndCleanup_of_smaller s cand f hb hf hlt]
          exact ⟨rfl, rfl, rfl, rfl, hb, rfl⟩
        · rw [offerFallbackAndCleanup_of_larger s cand f hb hf hlt]
          exact ⟨rfl, rfl, rfl, rfl, hb, rfl⟩

/-! ### The generic loop-invariant combinator -/

/-- The loop state carried out of `searchLoop` on either exit. -/
def finalState : Except (String × LoopState) LoopState → LoopState
  | .error (_, s) => s
  | .ok s => s

theorem searchLoop_inv (codec : Codec) (target : Nat) (tol : ℚ)
    (P : LoopState → Prop)
    (hstep : ∀ s s1, s.low ≤ s.high → P s →
      loopBody codec target tol s = .ok s1 → P s1) :
    ∀ fuel s s1, P s → searchLoop codec target tol fuel s = .ok s1 → P s1 := by
  intro fuel
  induction fuel with
  | zero =>
    intro s s1 hP h
    simp only [searchLoop] at h
    injection h with h
    exact h ▸ hP
  | succ n ih =>
    intro s s1 hP h
    simp only [searchLoop] at h
    by_cases hlh : s.low ≤ s.high
    · rw [if_pos hlh] at h
      cases hb : loopBody codec target tol s with
      | error e => rw [hb] at h; cases h
      | ok s2 =>
        rw [hb] at h
        exact ih s2 s1 (hstep s s2 hlh hP hb) h
    · rw [if_neg hlh] at h
      injection h with h
      exact h ▸ hP

theorem offerPassing_low (target : Nat) (s : LoopState) (cand : Cand) :
    (offerPassing target s cand).1.low = cand.quality + 1 ∧
    (offerPassing target s cand).1.reached = decide (cand.size ≤ target) := by
  cases hb : s.best with
  | none => rw [offerPassing_of_none target s cand hb]; exact ⟨rfl, rfl⟩
  | some b =>
    by_cases hlt : b.size < cand.size
    · rw [offerPassing_of_replace target s cand b hb hlt]; exact ⟨rfl, rfl⟩
    · rw [offerPassing_of_keep target s cand b hb hlt]; exact ⟨rfl, rfl⟩

/-! ### Shapes of one loop iteration -/

theorem loopBody_error_shape (codec : Codec) (target : Nat) (tol : ℚ)
    (s : LoopState) (e : String) (s1 : LoopState)
    (h : loopBody codec target tol s = .error (e, s1)) :
    codec ((s.low + s.high) / 2) = .error e ∧
    s1.calls = s.calls ++ [(s.low + s.high) / 2] := by
  cases hc : codec ((s.low + s.high) / 2) with
  | error e' =>
    rw [loopBody_of_error codec target tol s e' hc] at h
    injection h with h
    rw [Prod.mk.injEq] at h
    obtain ⟨h1, h2⟩ := h
    subst h1
    subst h2
    exact ⟨rfl, rfl⟩
  | ok sz =>
    by_cases hp : passes target tol sz
    · rw [loopBody_of_pass codec target tol s sz hc hp] at h
      cases h
    · rw [loopBody_of_fail codec target tol s sz hc
        (Bool.not_eq_true _ ▸ hp)] at h
      cases h

theorem loopBody_ok_shape (codec : Codec) (target : Nat) (tol : ℚ)
    (s : LoopState) (s1 : LoopState)
    (h : loopBody codec target tol s = .ok s1) :
    ∃ sz, codec ((s.low + s.high) / 2) = .ok sz ∧
      s1.calls = s.calls ++ [(s.low + s.high) / 2] ∧
      s1.iterations = s.iterations + 1 ∧
      ((passes target tol sz = true ∧
          s1.low = (s.low + s.high) / 2 + 1 ∧ s1.high = s.high) ∨
       (passes target tol sz = false ∧
          s1.low = s.low ∧ s1.high = (s.low + s.high) / 2 - 1)) := by
  cases hc : codec ((s.low + s.high) / 2) with
  | error e' =>
    rw [loopBody_of_error codec target tol s e' hc] at h
    cases h
  | ok sz =>
    refine ⟨sz, rfl, ?_⟩
    by_cases hp : passes target tol sz
    · rw [loopBody_of_pass codec target tol s sz hc hp] at h
      injection h with h
      subst h
      obtain ⟨_, hh, hi, hcalls, _⟩ :=
        offerFallbackAndCleanup_preserves
          (offerPassing target (bumped s) (trialCand s sz)).1 (trialCand s sz)
          (offerPassing target (bumped s) (trialCand s sz)).2
      obtain ⟨hh2, hi2, hcalls2, _⟩ :=
        offerPassing_preserves target (bumped s) (trialCand s sz)
      obtain ⟨hlow, _⟩ := offerPassing_low target (bumped s) (trialCand s sz)
      obtain ⟨hlow1, _, _, _, _, _⟩ :=
        offerFallbackAndCleanup_preserves
          (offerPassing target (bumped s) (trialCand s sz)).1 (trialCand s sz)
          (offerPassing target (bumped s) (trialCand s sz)).2
      refine ⟨by rw [hcalls, hcalls2]; rfl, by rw [hi, hi2]; rfl, ?_⟩
      exact Or.inl ⟨hp, by rw [hlow1, hlow]; rfl, by rw [hh, hh2]; rfl⟩
    · rw [loopBody_of_fail codec target tol s sz hc
        (Bool.not_eq_true _ ▸ hp)] at h
      injection h with h
      subst h
      obtain ⟨hlow, hh, hi, hcalls, _, _⟩ :=
        offerFallbackAndCleanup_preserves
          { bumped s with high := (s.low + s.high) / 2 - 1 } (trialCand s sz) false
      exact ⟨by rw [hcalls]; rfl, by rw [hi]; rfl,
        Or.inr ⟨Bool.not_eq_true _ ▸ hp, by rw [hlow]; rfl, by rw [hh]⟩⟩

/-! ### Trace of codec calls over a whole run of the loop -/

theorem searchLoop_trace (codec : Codec) (target : Nat) (tol : ℚ) :
    ∀ fuel s,
      (∀ s1, searchLoop codec target tol fuel s = .ok s1 →
        ∃ ext, s1.calls = s.calls ++ ext ∧ ext.length ≤ fuel ∧
          (∀ q ∈ ext, ∃ sz, codec q = .ok sz)) ∧
      (∀ e s1, searchLoop codec target tol fuel s = .error (e, s1) →
        ∃ ext qf, s1.calls = s.calls ++ (ext ++ [qf]) ∧
          (ext ++ [qf]).length ≤ fuel ∧
          (∀ q ∈ ext, ∃ sz, codec q = .ok sz) ∧ codec qf = .error e) := by
  intro fuel
  induction fuel with
  | zero =>
    intro s
    constructor
    · intro s1 h
      simp only [searchLoop] at h
      injection h with h
      exact ⟨[], by rw [← h]; simp, by simp, by simp⟩
    · intro e s1 h
      simp only [searchLoop] at h
      cases h
  | succ n ih =>
    intro s
    constructor
    · intro s1 h
      simp only [searchLoop] at h
      by_cases hlh : s.low ≤ s.high
      · rw [if_pos hlh] at h
        cases hb : loopBody codec target tol s with
        | error p => rw [hb] at h; cases h
        | ok s2 =>
          rw [hb] at h
          obtain ⟨sz, hcall, hcalls, _, _⟩ :=
            loopBody_ok_shape codec target tol s s2 hb
          obtain ⟨ext, hext, hlen, hok⟩ := (ih s2).1 s1 h
          refine ⟨(s.low + s.high) / 2 :: ext, ?_, ?_, ?_⟩
          · rw [hext, hcalls]; simp
          · simpa using Nat.succ_le_succ hlen
          · intro q hq
            rcases List.mem_cons.mp hq with hq | hq
            · exact ⟨sz, hq ▸ hcall⟩
            · exact hok q hq
      · rw [if_neg hlh] at h
        injection h with h
        exact ⟨[], by rw [← h]; simp, by simp, by simp⟩
    · intro e s1 h
      simp only [searchLoop] at h
      by_cases hlh : s.low ≤ s.high
      · rw [if_pos hlh] at h
        cases hb : loopBody codec target tol s with
        | error p =>
          rw [hb] at h
          injection h with h
          obtain ⟨he, hs⟩ := Prod.mk.injEq .. ▸ h
          obtain ⟨hcall, hcalls⟩ :=
            loopBody_error_shape codec target tol s p.1 p.2 (by rw [hb])
          subst hs
          refine ⟨[], (s.low + s.high) / 2, by simpa using hcalls, by simp,
            by simp, ?_⟩
          rw [← he]
          exact hcall
        | ok s2 =>
          rw [hb] at h
          obtain ⟨sz, hcall, hcalls, _, _⟩ :=
            loopBody_ok_shape codec target tol s s2 hb
          obtain ⟨ext, qf, hext, hlen, hok, hfail⟩ := (ih s2).2 e s1 h
          refine ⟨(s.low + s.high) / 2 :: ext, qf, ?_, ?_, ?_, hfail⟩
          · rw [hext, hcalls]; simp
          · simpa using Nat.succ_le_succ hlen
          · intro q hq
            rcases List.mem_cons.mp hq with hq | hq
            · exact ⟨sz, hq ▸ hcall⟩
            · exact hok q hq
      · rw [if_neg hlh] at h
        cases h

/-! ### Distinctness and range of trial qualities -/

theorem searchLoop_quality_bounds (codec : Codec) (target : Nat) (tol : ℚ) :
    ∀ fuel s, 1 ≤ s.low →
      ∃ ext, (finalState (searchLoop codec target tol fuel s)).calls =
          s.calls ++ ext ∧ ext.Nodup ∧
        ∀ q ∈ ext, s.low ≤ q ∧ q ≤ s.high := by
  intro fuel
  induction fuel with
  | zero =>
    intro s _
    exact ⟨[], by simp [searchLoop, finalState], by simp, by simp⟩
  | succ n ih =>
    intro s hlow
    by_cases hlh : s.low ≤ s.high
    · have hq1 : s.low ≤ (s.low + s.high) / 2 := by omega
      have hq2 : (s.low + s.high) / 2 ≤ s.high := by omega
      cases hb : loopBody codec target tol s with
      | error p =>
        obtain ⟨_, hcalls⟩ :=
          loopBody_error_shape codec target tol s p.1 p.2 (by rw [hb])
        refine ⟨[(s.low + s.high) / 2], ?_, by simp, ?_⟩
        · simp only [searchLoop, if_pos hlh, hb, finalState]
          exact hcalls
        · intro q hq
          rw [List.mem_singleton] at hq
          exact ⟨hq ▸ hq1, hq ▸ hq2⟩
      | ok s2 =>
        obtain ⟨sz, hcall, hcalls, _, hcases⟩ :=
          loopBody_ok_shape codec target tol s s2 hb
        have hres : finalState (searchLoop codec target tol (n + 1) s) =
            finalState (searchLoop codec target tol n s2) := by
          simp only [searchLoop, if_pos hlh, hb]
        rcases hcases with ⟨_, hl2, hh2⟩ | ⟨_, hl2, hh2⟩
        · -- passing trial: next interval is [mid + 1, high]
          obtain ⟨ext, hext, hnd, hbnd⟩ := ih s2 (by omega)
          refine ⟨(s.low + s.high) / 2 :: ext, ?_, ?_, ?_⟩
          · rw [hres, hext, hcalls]; simp
          · refine List.nodup_cons.mpr ⟨fun hmem => ?_, hnd⟩
            have := (hbnd _ hmem).1
            omega
          · intro q hq
            rcases List.mem_cons.mp hq with hq | hq
            · exact ⟨hq ▸ hq1, hq ▸ hq2⟩
            · have h1 := (hbnd q hq).1
              have h2 := (hbnd q hq).2
              constructor <;> omega
        · -- failing trial: next interval is [low, mid - 1]
          obtain ⟨ext, hext, hnd, hbnd⟩ := ih s2 (by omega)
          refine ⟨(s.low + s.high) / 2 :: ext, ?_, ?_, ?_⟩
          · rw [hres, hext, hcalls]; simp
          · refine List.nodup_cons.mpr ⟨fun hmem => ?_, hnd⟩
            have h1 := (hbnd _ hmem).2
            omega
          · intro q hq
            rcases List.mem_cons.mp hq with hq | hq
            · exact ⟨hq ▸ hq1, hq ▸ hq2⟩
            · have h1 := (hbnd q hq).1
              have h2 := (hbnd q hq).2
              constructor <;> omega
    · refine ⟨[], ?_, by simp, by simp⟩
      simp [searchLoop, if_neg hlh, finalState]

/-! ### Full case analysis of one successful iteration -/

theorem mem_unlinkTemp (l : List Nat) (id x : Nat) :
    x ∈ unlinkTemp l id ↔ x ∈ l ∧ x ≠ id := by
  simp [unlinkTemp]

/-- The seven possible effects of one successful iteration of the loop:
passing trial retained as first best / replacing a smaller best / discarded
against a no-smaller best; failing trial discarded against a retained best /
retained as first fallback / replacing a larger fallback / discarded against
a no-larger fallback. -/
theorem loopBody_ok_cases (codec : Codec) (target : Nat) (tol : ℚ)
    (s s1 : LoopState) (h : loopBody codec target tol s = .ok s1) :
    ∃ sz, codec ((s.low + s.high) / 2) = .ok sz ∧
      (let q := (s.low + s.high) / 2
       let id := s.iterations
       let cand : Cand := ⟨id, q, sz⟩
       (passes target tol sz = true ∧ s.best = none ∧
         s1 = { s with iterations := id + 1
                       calls := s.calls ++ [q]
                       live := s.live ++ [id]
                       best := some cand
                       reached := decide (sz ≤ target)
                       low := q + 1 }) ∨
       (passes target tol sz = true ∧ (∃ b, s.best = some b ∧ b.size < sz ∧
         s1 = { s with iterations := id + 1
                       calls := s.calls ++ [q]
                       live := unlinkTemp (s.live ++ [id]) b.id
                       best := some cand
                       reached := decide (sz ≤ target)
                       low := q + 1 })) ∨
       (passes target tol sz = true ∧ (∃ b, s.best = some b ∧ ¬ b.size < sz ∧
         s1 = { s with iterations := id + 1
                       calls := s.calls ++ [q]
                       live := unlinkTemp (s.live ++ [id]) id
                       reached := decide (sz ≤ target)
                       low := q + 1 })) ∨
       (passes target tol sz = false ∧ (∃ b, s.best = some b ∧
         s1 = { s with iterations := id + 1
                       calls := s.calls ++ [q]
                       live := unlinkTemp (s.live ++ [id]) id
                       high := q - 1 })) ∨
       (passes target tol sz = false ∧ s.best = none ∧ s.fallback = none ∧
         s1 = { s with iterations := id + 1
                       calls := s.calls ++ [q]
                       live := s.live ++ [id]
                       fallback := some cand
                       high := q - 1 }) ∨
       (passes target tol sz = false ∧ s.best = none ∧
         (∃ f, s.fallback = some f ∧ sz < f.size ∧
         s1 = { s with iterations := id + 1
                       calls := s.calls ++ [q]
                       live := unlinkTemp (s.live ++ [id]) f.id
                       fallback := some cand
                       high := q - 1 })) ∨
       (passes target tol sz = false ∧ s.best = none ∧
         (∃ f, s.fallback = some f ∧ ¬ sz < f.size ∧
         s1 = { s with iterations := id + 1
                       calls := s.calls ++ [q]
                       live := unlinkTemp (s.live ++ [id]) id
                       high := q - 1 }))) := by
  obtain ⟨lo, hi, it, bst, fb, rc, lv, cl⟩ := s
  dsimp only at h ⊢
  cases hc : codec ((lo + hi) / 2) with
  | error e =>
    simp [loopBody, hc] at h
  | ok sz =>
    refine ⟨sz, rfl, ?_⟩
    by_cases hp : passes target tol sz
    · cases bst with
      | none =>
        refine Or.inl ⟨hp, rfl, ?_⟩
        simp [loopBody, offerPassing, offerFallbackAndCleanup, hc, hp,
          if_true, if_false] at h
        exact h.symm
      | some b =>
        by_cases hlt : b.size < sz
        · refine Or.inr (Or.inl ⟨hp, b, rfl, hlt, ?_⟩)
          simp [loopBody, offerPassing, offerFallbackAndCleanup, hc, hp,
            if_true, if_false, hlt] at h
          exact h.symm
        · refine Or.inr (Or.inr (Or.inl ⟨hp, b, rfl, hlt, ?_⟩))
          simp [loopBody, offerPassing, offerFallbackAndCleanup, hc, hp,
            if_true, if_false, hlt] at h
          exact h.symm
    · have hp' : passes target tol sz = false := Bool.not_eq_true _ ▸ hp
      cases bst with
      | some b =>
        refine Or.inr (Or.inr (Or.inr (Or.inl ⟨hp', b, rfl, ?_⟩)))
        simp [loopBody, offerPassing, offerFallbackAndCleanup, hc, hp',
          if_true, if_false] at h
        exact h.symm
      | none =>
        cases fb with
        | none =>
          refine Or.inr (Or.inr (Or.inr (Or.inr (Or.inl ⟨hp', rfl, rfl, ?_⟩))))
          simp [loopBody, offerPassing, offerFallbackAndCleanup, hc, hp',
            if_true, if_false] at h
          exact h.symm
        | some f =>
          by_cases hlt : sz < f.size
          · refine Or.inr (Or.inr (Or.inr (Or.inr (Or.inr (Or.inl
              ⟨hp', rfl, f, rfl, hlt, ?_⟩)))))
            simp [loopBody, offerPassing, offerFallbackAndCleanup, hc, hp',
              if_true, if_false, hlt] at h
            exact h.symm
          · refine Or.inr (Or.inr (Or.inr (Or.inr (Or.inr (Or.inr
              ⟨hp', rfl, f, rfl, hlt, ?_⟩)))))
            simp [loopBody, offerPassing, offerFallbackAndCleanup, hc, hp',
              if_true, if_false, hlt] at h
            exact h.symm

/-! ### Liveness of the retained candidates -/

/-- Retained ledger entries are live temp files, were produced by earlier
iterations, and the two slots never alias. -/
def LiveInv (s : LoopState) : Prop :=
  (∀ b, s.best = some b → b.id ∈ s.live ∧ b.id < s.iterations) ∧
  (∀ f, s.fallback = some f → f.id ∈ s.live ∧ f.id < s.iterations) ∧
  (∀ b f, s.best = some b → s.fallback = some f → b.id ≠ f.id)

theorem loopBody_preserves_LiveInv (codec : Codec) (target : Nat) (tol : ℚ)
    (s s1 : LoopState) (hinv : LiveInv s)
    (h : loopBody codec target tol s = .ok s1) : LiveInv s1 := by
  obtain ⟨hB, hF, hD⟩ := hinv
  obtain ⟨sz, hc, hcase⟩ := loopBody_ok_cases codec target tol s s1 h
  rcases hcase with ⟨hp, hbb, rfl⟩ | ⟨hp, b, hbb, hlt, rfl⟩ | ⟨hp, b, hbb, hlt, rfl⟩ |
    ⟨hp, b, hbb, rfl⟩ | ⟨hp, hbb, hff, rfl⟩ | ⟨hp, hbb, f, hff, hlt, rfl⟩ |
    ⟨hp, hbb, f, hff, hlt, rfl⟩
  · -- passing trial, retained as first best
    refine ⟨?_, ?_, ?_⟩
    · intro b' hb'
      simp only [Option.some.injEq] at hb'
      subst hb'
      simp
    · intro f' hf'
      simp only at hf'
      obtain ⟨h1, h2⟩ := hF f' hf'
      exact ⟨by simp [h1], by dsimp only; omega⟩
    · intro b' f' hb' hf'
      simp only [Option.some.injEq] at hb'
      simp only at hf'
      subst hb'
      have h2 := (hF f' hf').2
      dsimp only
      omega
  · -- passing trial, replacing a smaller best
    refine ⟨?_, ?_, ?_⟩
    · intro b' hb'
      simp only [Option.some.injEq] at hb'
      subst hb'
      have h2 := (hB b hbb).2
      simp only [mem_unlinkTemp]
      refine ⟨⟨by simp, by omega⟩, by omega⟩
    · intro f' hf'
      simp only at hf'
      obtain ⟨h1, h2⟩ := hF f' hf'
      have hne := hD b f' hbb hf'
      simp only [mem_unlinkTemp]
      exact ⟨⟨by simp [h1], fun hx => hne hx.symm⟩, by omega⟩
    · intro b' f' hb' hf'
      simp only [Option.some.injEq] at hb'
      simp only at hf'
      subst hb'
      have h2 := (hF f' hf').2
      dsimp only
      omega
  · -- passing trial, discarded against a no-smaller best
    refine ⟨?_, ?_, ?_⟩
    · intro b' hb'
      simp only at hb'
      obtain ⟨h1, h2⟩ := hB b' hb'
      simp only [mem_unlinkTemp]
      exact ⟨⟨by simp [h1], by omega⟩, by omega⟩
    · intro f' hf'
      simp only at hf'
      obtain ⟨h1, h2⟩ := hF f' hf'
      simp only [mem_unlinkTemp]
      exact ⟨⟨by simp [h1], by omega⟩, by omega⟩
    · intro b' f' hb' hf'
      simp only at hb' hf'
      exact hD b' f' hb' hf'
  · -- failing trial, discarded against a retained best
    refine ⟨?_, ?_, ?_⟩
    · intro b' hb'
      simp only at hb'
      obtain ⟨h1, h2⟩ := hB b' hb'
      simp only [mem_unlinkTemp]
      exact ⟨⟨by simp [h1], by omega⟩, by omega⟩
    · intro f' hf'
      simp only at hf'
      obtain ⟨h1, h2⟩ := hF f' hf'
      simp only [mem_unlinkTemp]
      exact ⟨⟨by simp [h1], by omega⟩, by omega⟩
    · intro b' f' hb' hf'
      simp only at hb' hf'
      exact hD b' f' hb' hf'
  · -- failing trial, retained as first fallback
    refine ⟨?_, ?_, ?_⟩
    · intro b' hb'
      simp only at hb'
      rw [hbb] at hb'
      cases hb'
    · intro f' hf'
      simp only [Option.some.injEq] at hf'
      subst hf'
      simp
    · intro b' f' hb' hf'
      simp only at hb'
      rw [hbb] at hb'
      cases hb'
  · -- failing trial, replacing a larger fallback
    refine ⟨?_, ?_, ?_⟩
    · intro b' hb'
      simp only at hb'
      rw [hbb] at hb'
      cases hb'
    · intro f' hf'
      simp only [Option.some.injEq] at hf'
      subst hf'
      have h2 := (hF f hff).2
      simp only [mem_unlinkTemp]
      refine ⟨⟨by simp, by omega⟩, by omega⟩
    · intro b' f' hb' hf'
      simp only at hb'
      rw [hbb] at hb'
      cases hb'
  · -- failing trial, discarded against a no-larger fallback
    refine ⟨?_, ?_, ?_⟩
    · intro b' hb'
      simp only at hb'
      rw [hbb] at hb'
      cases hb'
    · intro f' hf'
      simp only at hf'
      obtain ⟨h1, h2⟩ := hF f' hf'
      simp only [mem_unlinkTemp]
      exact ⟨⟨by simp [h1], by omega⟩, by omega⟩
    · intro b' f' hb' hf'
      simp only at hb'
      rw [hbb] at hb'
      cases hb'

/-! ### After any successful iteration the ledger is non-empty -/

theorem loopBody_ledger_nonempty (codec : Codec) (target : Nat) (tol : ℚ)
    (s s1 : LoopState) (h : loopBody codec target tol s = .ok s1) :
    s1.best.isSome ∨ s1.fallback.isSome := by
  obtain ⟨sz, hc, hcase⟩ := loopBody_ok_cases codec target tol s s1 h
  rcases hcase with ⟨hp, hbb, rfl⟩ | ⟨hp, b, hbb, hlt, rfl⟩ | ⟨hp, b, hbb, hlt, rfl⟩ |
    ⟨hp, b, hbb, rfl⟩ | ⟨hp, hbb, hff, rfl⟩ | ⟨hp, hbb, f, hff, hlt, rfl⟩ |
    ⟨hp, hbb, f, hff, hlt, rfl⟩
  · exact Or.inl (by simp)
  · exact Or.inl (by simp)
  · exact Or.inl (by simp [hbb])
  · exact Or.inl (by simp [hbb])
  · exact Or.inr (by simp)
  · exact Or.inr (by simp)
  · exact Or.inr (by simp [hff])

theorem searchLoop_ledger_nonempty (codec : Codec) (target : Nat) (tol : ℚ)
    (fuel : Nat) (s s1 : LoopState) (hfuel : 1 ≤ fuel) (hlh : s.low ≤ s.high)
    (h : searchLoop codec target tol fuel s = .ok s1) :
    s1.best.isSome ∨ s1.fallback.isSome := by
  obtain ⟨n, rfl⟩ : ∃ n, fuel = n + 1 := ⟨fuel - 1, by omega⟩
  simp only [searchLoop, if_pos hlh] at h
  cases hb : loopBody codec target tol s with
  | error e => rw [hb] at h; cases h
  | ok s2 =>
    rw [hb] at h
    exact searchLoop_inv codec target tol
      (fun t => t.best.isSome ∨ t.fallback.isSome)
      (fun t t1 _ _ hbt => loopBody_ledger_nonempty codec target tol t t1 hbt)
      n s2 s1 (loopBody_ledger_nonempty codec target tol s s2 hb) h

/-! ### The fallback slot while no best was ever retained -/

/-- While no passing candidate was ever retained (`best = none`): every
completed call failed the ceiling, and the fallback slot holds exactly the
minimum size observed so far (or nothing when no call completed). -/
def FallbackMin (codec : Codec) (target : Nat) (tol : ℚ) (s : LoopState) : Prop :=
  s.best = none →
    ((∀ q sz, q ∈ s.calls → codec q = .ok sz → passes target tol sz = false) ∧
     ((s.fallback = none ∧ s.calls = []) ∨
      (∃ f, s.fallback = some f ∧
        (∃ q, q ∈ s.calls ∧ codec q = .ok f.size) ∧
        (∀ q sz, q ∈ s.calls → codec q = .ok sz → f.size ≤ sz))))

theorem loopBody_preserves_FallbackMin (codec : Codec) (target : Nat) (tol : ℚ)
    (s s1 : LoopState) (hinv : FallbackMin codec target tol s)
    (h : loopBody codec target tol s = .ok s1) :
    FallbackMin codec target tol s1 := by
  obtain ⟨sz, hc, hcase⟩ := loopBody_ok_cases codec target tol s s1 h
  rcases hcase with ⟨hp, hbb, rfl⟩ | ⟨hp, b, hbb, hlt, rfl⟩ | ⟨hp, b, hbb, hlt, rfl⟩ |
    ⟨hp, b, hbb, rfl⟩ | ⟨hp, hbb, hff, rfl⟩ | ⟨hp, hbb, f, hff, hlt, rfl⟩ |
    ⟨hp, hbb, f, hff, hlt, rfl⟩
  · intro hbest; simp at hbest
  · intro hbest; simp at hbest
  · intro hbest
    dsimp only at hbest
    rw [hbb] at hbest
    cases hbest
  · intro hbest
    dsimp only at hbest
    rw [hbb] at hbest
    cases hbest
  · -- first fallback retained
    intro _
    obtain ⟨hAll, hcase2⟩ := hinv hbb
    have hcalls : s.calls = [] := by
      rcases hcase2 with ⟨_, hce⟩ | ⟨f', hf', _, _⟩
      · exact hce
      · rw [hff] at hf'; cases hf'
    constructor
    · intro q' sz' hq' hcq'
      dsimp only at hq'
      rw [hcalls] at hq'
      simp only [List.nil_append, List.mem_singleton] at hq'
      subst hq'
      rw [hc] at hcq'
      injection hcq' with hcq'
      rw [← hcq']
      exact hp
    · refine Or.inr ⟨⟨s.iterations, (s.low + s.high) / 2, sz⟩, rfl, ?_, ?_⟩
      · exact ⟨(s.low + s.high) / 2, by simp, hc⟩
      · intro q' sz' hq' hcq'
        dsimp only at hq'
        rw [hcalls] at hq'
        simp only [List.nil_append, List.mem_singleton] at hq'
        subst hq'
        rw [hc] at hcq'
        injection hcq' with hcq'
        rw [hcq']
  · -- smaller failing trial replaces the fallback
    intro _
    obtain ⟨hAll, hcase2⟩ := hinv hbb
    have hgood : ∃ f', s.fallback = some f' ∧
        (∃ q, q ∈ s.calls ∧ codec q = .ok f'.size) ∧
        (∀ q sz, q ∈ s.calls → codec q = .ok sz → f'.size ≤ sz) := by
      rcases hcase2 with ⟨hfn, _⟩ | hgood
      · rw [hff] at hfn; cases hfn
      · exact hgood
    obtain ⟨f', hf', hex, hmin⟩ := hgood
    rw [hff] at hf'
    injection hf' with hf'
    subst hf'
    constructor
    · intro q' sz' hq' hcq'
      dsimp only at hq'
      rcases List.mem_append.mp hq' with hq' | hq'
      · exact hAll q' sz' hq' hcq'
      · rw [List.mem_singleton] at hq'
        subst hq'
        rw [hc] at hcq'
        injection hcq' with hcq'
        rw [← hcq']
        exact hp
    · refine Or.inr ⟨⟨s.iterations, (s.low + s.high) / 2, sz⟩, rfl, ?_, ?_⟩
      · exact ⟨(s.low + s.high) / 2, by simp, hc⟩
      · intro q' sz' hq' hcq'
        dsimp only at hq'
        rcases List.mem_append.mp hq' with hq' | hq'
        · have := hmin q' sz' hq' hcq'
          dsimp only
          omega
        · rw [List.mem_singleton] at hq'
          subst hq'
          rw [hc] at hcq'
          injection hcq' with hcq'
          dsimp only
          omega
  · -- no-smaller failing trial is discarded, fallback kept
    intro _
    obtain ⟨hAll, hcase2⟩ := hinv hbb
    have hgood : ∃ f', s.fallback = some f' ∧
        (∃ q, q ∈ s.calls ∧ codec q = .ok f'.size) ∧
        (∀ q sz, q ∈ s.calls → codec q = .ok sz → f'.size ≤ sz) := by
      rcases hcase2 with ⟨hfn, _⟩ | hgood
      · rw [hff] at hfn; cases hfn
      · exact hgood
    obtain ⟨f', hf', hex, hmin⟩ := hgood
    rw [hff] at hf'
    injection hf' with hf'
    subst hf'
    constructor
    · intro q' sz' hq' hcq'
      dsimp only at hq'
      rcases List.mem_append.mp hq' with hq' | hq'
      · exact hAll q' sz' hq' hcq'
      · rw [List.mem_singleton] at hq'
        subst hq'
        rw [hc] at hcq'
        injection hcq' with hcq'
        rw [← hcq']
        exact hp
    · refine Or.inr ⟨f, by simp [hff], ?_, ?_⟩
      · obtain ⟨q', hq', hcq'⟩ := hex
        exact ⟨q', by simp [hq'], hcq'⟩
      · intro q' sz' hq' hcq'
        dsimp only at hq'
        rcases List.mem_append.mp hq' with hq' | hq'
        · exact hmin q' sz' hq' hcq'
        · rw [List.mem_singleton] at hq'
          subst hq'
          rw [hc] at hcq'
          injection hcq' with hcq'
          omega

/-! ### The reached flag under a monotone codec -/

/-- Invariant tying the `reached_target` flag to the retained best
candidate: the best was produced at a quality below the current interval,
its size is the codec's answer at that quality, and `reached` holds exactly
when its size meets the target; while no best exists `reached` is false;
the fallback always fails the ceiling. -/
def MonoInv (codec : Codec) (target : Nat) (tol : ℚ) (s : LoopState) : Prop :=
  (∀ b, s.best = some b → b.quality < s.low ∧ codec b.quality = .ok b.size ∧
    (s.reached = true ↔ b.size ≤ target)) ∧
  (s.best = none → s.reached = false) ∧
  (∀ f, s.fallback = some f → passes target tol f.size = false)

theorem loopBody_preserves_MonoInv (codec : Codec) (target : Nat) (tol : ℚ)
    (hm : ∀ q q' sz sz', q ≤ q' → codec q = .ok sz → codec q' = .ok sz' → sz ≤ sz')
    (s s1 : LoopState) (hlh : s.low ≤ s.high)
    (hinv : MonoInv codec target tol s)
    (h : loopBody codec target tol s = .ok s1) :
    MonoInv codec target tol s1 := by
  obtain ⟨hB, hN, hF⟩ := hinv
  obtain ⟨sz, hc, hcase⟩ := loopBody_ok_cases codec target tol s s1 h
  have hql : s.low ≤ (s.low + s.high) / 2 := by omega
  rcases hcase with ⟨hp, hbb, rfl⟩ | ⟨hp, b, hbb, hlt, rfl⟩ | ⟨hp, b, hbb, hlt, rfl⟩ |
    ⟨hp, b, hbb, rfl⟩ | ⟨hp, hbb, hff, rfl⟩ | ⟨hp, hbb, f, hff, hlt, rfl⟩ |
    ⟨hp, hbb, f, hff, hlt, rfl⟩
  · refine ⟨?_, ?_, ?_⟩
    · intro b' hb'
      simp only [Option.some.injEq] at hb'
      subst hb'
      exact ⟨by dsimp only; omega, hc, by simp⟩
    · intro hb'; simp at hb'
    · intro f' hf'
      dsimp only at hf'
      exact hF f' hf'
  · refine ⟨?_, ?_, ?_⟩
    · intro b' hb'
      simp only [Option.some.injEq] at hb'
      subst hb'
      exact ⟨by dsimp only; omega, hc, by simp⟩
    · intro hb'; simp at hb'
    · intro f' hf'
      dsimp only at hf'
      exact hF f' hf'
  · -- passing trial not kept: its size equals the best size under monotonicity
    obtain ⟨hqb, hcb, hrb⟩ := hB b hbb
    have hble : b.size ≤ sz := hm b.quality ((s.low + s.high) / 2) b.size sz
      (by omega) hcb hc
    have hbeq : sz = b.size := by omega
    refine ⟨?_, ?_, ?_⟩
    · intro b' hb'
      dsimp only at hb'
      rw [hbb] at hb'
      injection hb' with hb'
      subst hb'
      refine ⟨by dsimp only; omega, hcb, ?_⟩
      dsimp only
      rw [hbeq]
      simp
    · intro hb'
      dsimp only at hb'
      rw [hbb] at hb'
      cases hb'
    · intro f' hf'
      dsimp only at hf'
      exact hF f' hf'
  · refine ⟨?_, ?_, ?_⟩
    · intro b' hb'
      dsimp only at hb'
      obtain ⟨hqb, hcb, hrb⟩ := hB b' hb'
      exact ⟨by dsimp only; omega, hcb, hrb⟩
    · intro hb'
      dsimp only at hb'
      exact hN hb'
    · intro f' hf'
      dsimp only at hf'
      exact hF f' hf'
  · refine ⟨?_, ?_, ?_⟩
    · intro b' hb'
      dsimp only at hb'
      rw [hbb] at hb'
      cases hb'
    · intro _
      dsimp only
      exact hN hbb
    · intro f' hf'
      simp only [Option.some.injEq] at hf'
      subst hf'
      exact hp
  · refine ⟨?_, ?_, ?_⟩
    · intro b' hb'
      dsimp only at hb'
      rw [hbb] at hb'
      cases hb'
    · intro _
      dsimp only
      exact hN hbb
    · intro f' hf'
      simp only [Option.some.injEq] at hf'
      subst hf'
      exact hp
  · refine ⟨?_, ?_, ?_⟩
    · intro b' hb'
      dsimp only at hb'
      rw [hbb] at hb'
      cases hb'
    · intro _
      dsimp only
      exact hN hbb
    · intro f' hf'
      dsimp only at hf'
      exact hF f' hf'

/-! ### Unfolding `compress_pdf` under a valid budget, and `finalize` cases -/

theorem compress_pdf_search (codec : Codec) (inputSize target : Nat) (tol : ℚ)
    (minQ maxQ maxIter : Nat)
    (htol0 : 0 < tol) (htol1 : tol < 1) (hminQ : 1 ≤ minQ) (hmaxQ : maxQ ≤ 100)
    (hrange : minQ < maxQ) (hsize : target < inputSize) :
    compress_pdf codec true inputSize target tol minQ maxQ maxIter =
      match searchLoop codec target tol maxIter (initState minQ maxQ) with
      | .error (e, s) =>
        { result := .error (.codecFailure e), output := none
          live := s.live, calls := s.calls }
      | .ok s => finalize s := by
  unfold compress_pdf
  rw [if_neg (by simp), if_neg (by push_neg; exact ⟨htol0, htol1⟩),
    if_neg (by omega), if_neg (by omega)]

theorem finalize_of_best (s : LoopState) (b : Cand)
    (hb : s.best = some b) (hlive : b.id ∈ s.live) :
    finalize s =
      { result := .ok (b.size, s.reached)
        output := some (.artifact b)
        live := unlinkTemp s.live b.id
        calls := s.calls } := by
  unfold finalize
  rw [hb]
  dsimp only
  rw [if_pos hlive]

theorem finalize_of_fallback (s : LoopState) (f : Cand)
    (hb : s.best = none) (hf : s.fallback = some f) (hlive : f.id ∈ s.live) :
    finalize s =
      { result := .ok (f.size, s.reached)
        output := some (.artifact f)
        live := unlinkTemp s.live f.id
        calls := s.calls } := by
  unfold finalize
  rw [hb, hf]
  dsimp only
  rw [if_pos hlive]

theorem finalize_of_empty (s : LoopState)
    (hb : s.best = none) (hf : s.fallback = none) :
    finalize s =
      { result := .error .noCandidateProduced, output := none
        live := s.live, calls := s.calls } := by
  unfold finalize
  rw [hb, hf]

theorem finalize_calls (s : LoopState) : (finalize s).calls = s.calls := by
  unfold finalize
  cases hb : s.best with
  | some b =>
    dsimp only
    by_cases hlive : b.id ∈ s.live
    · rw [if_pos hlive]
    · rw [if_neg hlive]
  | none =>
    cases hf : s.fallback with
    | some f =>
      dsimp only
      by_cases hlive : f.id ∈ s.live
      · rw [if_pos hlive]
      · rw [if_neg hlive]
    | none => rfl

/-! ### The initial state satisfies all invariants -/

theorem initState_LiveInv (minQ maxQ : Nat) : LiveInv (initState minQ maxQ) :=
  ⟨fun b hb => by simp [initState] at hb,
   fun f hf => by simp [initState] at hf,
   fun b f hb _ => by simp [initState] at hb⟩

theorem initState_FallbackMin (codec : Codec) (target : Nat) (tol : ℚ)
    (minQ maxQ : Nat) : FallbackMin codec target tol (initState minQ maxQ) :=
  fun _ => ⟨fun q sz hq _ => by simp [initState] at hq, Or.inl ⟨rfl, rfl⟩⟩

theorem initState_MonoInv (codec : Codec) (target : Nat) (tol : ℚ)
    (minQ maxQ : Nat) : MonoInv codec target tol (initState minQ maxQ) :=
  ⟨fun b hb => by simp [initState] at hb,
   fun _ => rfl,
   fun f hf => by simp [initState] at hf⟩

/-- `best = none → reached = false` is preserved by successful iterations. -/
theorem loopBody_preserves_reached_false (codec : Codec) (target : Nat)
    (tol : ℚ) (s s1 : LoopState)
    (hinv : s.best = none → s.reached = false)
    (h : loopBody codec target tol s = .ok s1) :
    s1.best = none → s1.reached = false := by
  obtain ⟨sz, hc, hcase⟩ := loopBody_ok_cases codec target tol s s1 h
  rcases hcase with ⟨hp, hbb, rfl⟩ | ⟨hp, b, hbb, hlt, rfl⟩ | ⟨hp, b, hbb, hlt, rfl⟩ |
    ⟨hp, b, hbb, rfl⟩ | ⟨hp, hbb, hff, rfl⟩ | ⟨hp, hbb, f, hff, hlt, rfl⟩ |
    ⟨hp, hbb, f, hff, hlt, rfl⟩
  · intro hx; simp at hx
  · intro hx; simp at hx
  · intro hx; dsimp only at hx; rw [hbb] at hx; cases hx
  · intro hx; dsimp only at hx; rw [hbb] at hx; cases hx
  · intro _; dsimp only; exact hinv hbb
  · intro _; dsimp only; exact hinv hbb
  · intro _; dsimp only; exact hinv hbb

/-- `best = none` is preserved when every codec answer fails the ceiling. -/
theorem loopBody_preserves_best_none (codec : Codec) (target : Nat)
    (tol : ℚ) (s s1 : LoopState)
    (hallfail : ∀ q sz, codec q = .ok sz → passes target tol sz = false)
    (hinv : s.best = none)
    (h : loopBody codec target tol s = .ok s1) :
    s1.best = none := by
  obtain ⟨sz, hc, hcase⟩ := loopBody_ok_cases codec target tol s s1 h
  have hfail := hallfail _ _ hc
  rcases hcase with ⟨hp, hbb, rfl⟩ | ⟨hp, b, hbb, hlt, rfl⟩ | ⟨hp, b, hbb, hlt, rfl⟩ |
    ⟨hp, b, hbb, rfl⟩ | ⟨hp, hbb, hff, rfl⟩ | ⟨hp, hbb, f, hff, hlt, rfl⟩ |
    ⟨hp, hbb, f, hff, hlt, rfl⟩
  · rw [hp] at hfail; cases hfail
  · rw [hp] at hfail; cases hfail
  · rw [hp] at hfail; cases hfail
  · rw [hbb] at hinv; cases hinv
  · dsimp only; exact hinv
  · dsimp only; exact hinv
  · dsimp only; exact hinv

/-! ### Claim theorems -/

/-- A non-monotone codec: quality 57 gives 104 bytes, quality 76 gives 90
bytes, every other quality gives 1000000 bytes. -/
def cexCodec : Codec := fun q =>
  if q = 57 then .ok 104 else if q = 76 then .ok 90 else .ok 1000000

/-- A codec that produces an over-ceiling artifact on quality 57 and fails
on every other quality. -/
def failCodec : Codec := fun q =>
  if q = 57 then .ok 1000000 else .error "boom"

/-- C1 (counterexample): with the non-monotone codec `cexCodec`, target 100,
tolerance 1/20 (ceiling 105), quality range [20, 95], 8 iterations, input
size 200, `compress_pdf` promotes the quality-57 candidate of size 104 but
returns `reachedTarget = true`, although the promoted size 104 exceeds the
exact target 100: the claimed equivalence between the flag and the promoted
size fails as stated. -/
theorem C1_counterexample :
    (compress_pdf cexCodec true 200 100 (mkRat 1 20) 20 95 8).result =
      .ok (104, true) ∧ ¬ ((104 : Nat) ≤ 100) :=
  ⟨by decide, by decide⟩

/-- C1 (amended): for every codec whose successful answers are monotone
non-decreasing in the quality, every valid budget and an input larger than
the target, whenever `compress_pdf` returns a value, the `reachedTarget`
flag is true exactly when the promoted candidate size is at most
`targetBytes`; the tolerance ceiling alone never sets the flag. -/
theorem C1_reached_iff_promoted_le_target
    (codec : Codec) (inputSize target : Nat) (tol : ℚ) (minQ maxQ maxIter : Nat)
    (htol0 : 0 < tol) (htol1 : tol < 1) (hminQ : 1 ≤ minQ) (hmaxQ : maxQ ≤ 100)
    (hrange : minQ < maxQ) (hsize : target < inputSize)
    (hm : ∀ q q' sz sz', q ≤ q' → codec q = .ok sz → codec q' = .ok sz' → sz ≤ sz')
    (sz : Nat) (rt : Bool)
    (h : (compress_pdf codec true inputSize target tol minQ maxQ maxIter).result =
      .ok (sz, rt)) :
    rt = true ↔ sz ≤ target := by
  rw [compress_pdf_search codec inputSize target tol minQ maxQ maxIter htol0 htol1
    hminQ hmaxQ hrange hsize] at h
  cases hres : searchLoop codec target tol maxIter (initState minQ maxQ) with
  | error p =>
    obtain ⟨e, s⟩ := p
    rw [hres] at h
    dsimp only at h
    exact Except.noConfusion h
  | ok s =>
    rw [hres] at h
    dsimp only at h
    have hMono : MonoInv codec target tol s :=
      searchLoop_inv codec target tol (MonoInv codec target tol)
        (fun t t1 hlh hP hb =>
          loopBody_preserves_MonoInv codec target tol hm t t1 hlh hP hb)
        maxIter (initState minQ maxQ) s
        (initState_MonoInv codec target tol minQ maxQ) hres
    have hLive : LiveInv s :=
      searchLoop_inv codec target tol LiveInv
        (fun t t1 _ hP hb => loopBody_preserves_LiveInv codec target tol t t1 hP hb)
        maxIter (initState minQ maxQ) s (initState_LiveInv minQ maxQ) hres
    obtain ⟨hB, hN, hF⟩ := hMono
    cases hbb : s.best with
    | some b =>
      have hlive := (hLive.1 b hbb).1
      rw [finalize_of_best s b hbb hlive] at h
      dsimp only at h
      injection h with h
      rw [Prod.mk.injEq] at h
      obtain ⟨h1, h2⟩ := h
      rw [← h1, ← h2]
      exact (hB b hbb).2.2
    | none =>
      cases hff : s.fallback with
      | none =>
        rw [finalize_of_empty s hbb hff] at h
        dsimp only at h
        exact Except.noConfusion h
      | some f =>
        have hlive := (hLive.2.1 f hff).1
        rw [finalize_of_fallback s f hbb hff hlive] at h
        dsimp only at h
        injection h with h
        rw [Prod.mk.injEq] at h
        obtain ⟨h1, h2⟩ := h
        have hreached : s.reached = false := hN hbb
        have hfail : passes target tol f.size = false := hF f hff
        rw [← h1, ← h2, hreached]
        constructor
        · intro hx; cases hx
        · intro hx
          exfalso
          have htrue : passes target tol f.size = true := by
            rw [passes_iff]
            have hmple : (target : ℚ) ≤ (target : ℚ) * (1 + tol) := by
              nlinarith [htol0, (Nat.cast_nonneg target : (0 : ℚ) ≤ (target : ℚ))]
            have hle : (f.size : ℚ) ≤ (target : ℚ) := by exact_mod_cast hx
            linarith
          rw [hfail] at htrue
          cases htrue

/-- C1 (witness): the amended theorem applied to the monotone synthetic
codec of the spec scenario, where the promoted size is 524000 over the
target 500000 and the flag is false. -/
theorem C1_witness : (false = true ↔ (524000 : Nat) ≤ 500000) :=
  C1_reached_iff_promoted_le_target synthCodec 1000000 500000 (mkRat 1 20)
    20 95 8 (by decide) (by decide) (by decide) (by decide) (by decide)
    (by decide)
    (fun q q' sz sz' hle hq hq' => by
      simp only [synthCodec, Except.ok.injEq] at hq hq'
      omega)
    524000 false (by decide)

/-- C2 (code bug, evaluation at the failing input): with a codec that
produces an over-ceiling artifact on the first trial (retained as the
fallback, temp file 0) and then raises on the second trial, `compress_pdf`
propagates the failure but leaves temp file 0 on disk: a candidate
artifact other than the promoted one (here nothing is promoted) is not
released on the abort path. -/
theorem C2_leak_on_abort :
    compress_pdf failCodec true 200 100 (mkRat 1 20) 20 95 8 =
      { result := .error (.codecFailure "boom"), output := none
        live := [0], calls := [57, 38] } := by
  decide

/-- C3: with the synthetic codec `size(q) = 200000 + 6000 * q`,
`targetBytes = 500000`, `tolerance = 1/20` (ceiling 525000), quality range
[20, 95] and 8 iterations, the search promotes the candidate produced at
quality 54 with size 524000 and returns `reachedTarget = false`. (The run
uses 6 iterations with trials at 57, 38, 47, 52, 54, 55; temp file 0, the
fallback retained before the first passing trial, is left on disk.) -/
theorem C3_synthetic_scenario :
    compress_pdf synthCodec true 1000000 500000 (mkRat 1 20) 20 95 8 =
      { result := .ok (524000, false)
        output := some (.artifact ⟨4, 54, 524000⟩)
        live := [0]
        calls := [57, 38, 47, 52, 54, 55] } := by
  decide

/-- C5: whenever a quality that `compress_pdf` actually invoked has a
failing codec answer, the whole operation aborts with a `codecFailure`
carrying the original cause, nothing is produced at the output path, and
the failing invocation is the last one made: every earlier invocation
succeeded, so the search did not continue past the failure and the error
was not downgraded. -/
theorem C5_codec_failure_aborts (codec : Codec) (inputExists : Bool)
    (inputSize target : Nat) (tol : ℚ) (minQ maxQ maxIter : Nat)
    (q : Nat) (e : String)
    (hq : q ∈ (compress_pdf codec inputExists inputSize target tol
      minQ maxQ maxIter).calls)
    (hfail : codec q = .error e) :
    (compress_pdf codec inputExists inputSize target tol minQ maxQ maxIter).result =
      .error (.codecFailure e) ∧
    (compress_pdf codec inputExists inputSize target tol minQ maxQ maxIter).output =
      none ∧
    ∃ l, (compress_pdf codec inputExists inputSize target tol minQ maxQ
        maxIter).calls = l ++ [q] ∧
      ∀ q' ∈ l, ∃ sz, codec q' = .ok sz := by
  unfold compress_pdf at hq ⊢
  split_ifs at hq ⊢ with h1 h2 h3 h4
  · simp at hq
  · simp at hq
  · simp at hq
  · simp at hq
  · cases hres : searchLoop codec target tol maxIter (initState minQ maxQ) with
    | error p =>
      obtain ⟨e', s⟩ := p
      rw [hres] at hq
      dsimp only at hq ⊢
      obtain ⟨ext, qf, hcalls, hlen, hok, hcf⟩ :=
        (searchLoop_trace codec target tol maxIter (initState minQ maxQ)).2 e' s hres
      rw [show (initState minQ maxQ).calls = [] from rfl, List.nil_append] at hcalls
      rw [hcalls] at hq
      rcases List.mem_append.mp hq with hmem | hmem
      · obtain ⟨sz, hsz⟩ := hok q hmem
        rw [hfail] at hsz
        cases hsz
      · rw [List.mem_singleton] at hmem
        subst hmem
        rw [hfail] at hcf
        injection hcf with hcf
        subst hcf
        exact ⟨rfl, rfl, ext, by rw [hcalls], hok⟩
    | ok s =>
      rw [hres] at hq
      dsimp only at hq ⊢
      obtain ⟨ext, hcalls, hlen, hok⟩ :=
        (searchLoop_trace codec target tol maxIter (initState minQ maxQ)).1 s hres
      rw [show (initState minQ maxQ).calls = [] from rfl, List.nil_append] at hcalls
      rw [finalize_calls, hcalls] at hq
      obtain ⟨sz, hsz⟩ := hok q hq
      rw [hfail] at hsz
      cases hsz

/-- C5 (witness): `failCodec` fails on quality 38, the second invoked
quality; the run aborts with that cause, produces no output, and only the
succeeding trial at quality 57 precedes the failure. -/
theorem C5_witness :
    (compress_pdf failCodec true 200 100 (mkRat 1 20) 20 95 8).result =
      .error (.codecFailure "boom") ∧
    (compress_pdf failCodec true 200 100 (mkRat 1 20) 20 95 8).output = none ∧
    ∃ l, (compress_pdf failCodec true 200 100 (mkRat 1 20) 20 95 8).calls =
      l ++ [38] ∧ ∀ q' ∈ l, ∃ sz, failCodec q' = .ok sz :=
  C5_codec_failure_aborts failCodec true 200 100 (mkRat 1 20) 20 95 8 38 "boom"
    (by decide) (by decide)

/-- C6: on a valid budget, if the input size is at most `targetBytes`,
`compress_pdf` makes zero codec invocations, places a content-identical
copy of the input at the output path, creates no temporary artifact, and
returns the input size with `reachedTarget = true`. -/
theorem C6_copy_through (codec : Codec) (inputSize target : Nat) (tol : ℚ)
    (minQ maxQ maxIter : Nat)
    (htol0 : 0 < tol) (htol1 : tol < 1) (hminQ : 1 ≤ minQ) (hmaxQ : maxQ ≤ 100)
    (hrange : minQ < maxQ) (hsize : inputSize ≤ target) :
    compress_pdf codec true inputSize target tol minQ maxQ maxIter =
      { result := .ok (inputSize, true), output := some .inputCopy
        live := [], calls := [] } := by
  unfold compress_pdf
  rw [if_neg (by simp), if_neg (by push_neg; exact ⟨htol0, htol1⟩),
    if_neg (by omega), if_pos hsize]

/-- C6 (witness): an input of 400000 bytes against a 500000-byte target is
copied through. -/
theorem C6_witness :
    compress_pdf synthCodec true 400000 500000 (mkRat 1 20) 20 95 8 =
      { result := .ok (400000, true), output := some .inputCopy
        live := [], calls := [] } :=
  C6_copy_through synthCodec 400000 500000 (mkRat 1 20) 20 95 8
    (by decide) (by decide) (by decide) (by decide) (by decide) (by decide)

/-- C7: with an existing input, any budget with `tolerance ≤ 0`,
`tolerance ≥ 1`, `minQuality < 1`, `maxQuality > 100` or
`minQuality ≥ maxQuality` makes `compress_pdf` fail with the invalid-budget
error before any codec invocation and with no side effects: no output file
and no temporary artifact. -/
theorem C7_invalid_budget (codec : Codec) (inputSize target : Nat) (tol : ℚ)
    (minQ maxQ maxIter : Nat)
    (hbad : tol ≤ 0 ∨ 1 ≤ tol ∨ minQ < 1 ∨ 100 < maxQ ∨ maxQ ≤ minQ) :
    compress_pdf codec true inputSize target tol minQ maxQ maxIter =
      { result := .error .invalidBudget, output := none
        live := [], calls := [] } := by
  unfold compress_pdf
  rw [if_neg (by simp)]
  by_cases h1 : tol ≤ 0 ∨ 1 ≤ tol
  · rw [if_pos h1]
  · have h2 : minQ < 1 ∨ 100 < maxQ ∨ maxQ ≤ minQ := by
      rcases hbad with h | h | h | h | h
      · exact absurd (Or.inl h) h1
      · exact absurd (Or.inr h) h1
      · exact Or.inl h
      · exact Or.inr (Or.inl h)
      · exact Or.inr (Or.inr h)
    rw [if_neg h1, if_pos h2]

/-- C7 (witness): an inverted quality range (50 ≥ 40) is rejected with no
side effects. -/
theorem C7_witness :
    compress_pdf synthCodec true 1000000 500000 (mkRat 1 20) 50 40 8 =
      { result := .error .invalidBudget, output := none
        live := [], calls := [] } :=
  C7_invalid_budget synthCodec 1000000 500000 (mkRat 1 20) 50 40 8
    (Or.inr (Or.inr (Or.inr (Or.inr (by decide)))))

/-- C8: excluding the copy-through short-circuit (where the count is zero
anyway), `compress_pdf` invokes the codec at most `maxIterations` times,
for every codec and every input; and each pass of the loop body taken from
a reachable interval (`1 ≤ low ≤ high`) strictly shrinks the interval, so
the loop terminates. -/
theorem C8_iteration_bound (codec : Codec) (inputExists : Bool)
    (inputSize target : Nat) (tol : ℚ) (minQ maxQ maxIter : Nat) :
    (compress_pdf codec inputExists inputSize target tol minQ maxQ
      maxIter).calls.length ≤ maxIter ∧
    (∀ s s1 : LoopState, 1 ≤ s.low → s.low ≤ s.high →
      loopBody codec target tol s = .ok s1 →
      s1.high + 1 - s1.low < s.high + 1 - s.low) := by
  constructor
  · unfold compress_pdf
    split_ifs with h1 h2 h3 h4
    · simp
    · simp
    · simp
    · simp
    · cases hres : searchLoop codec target tol maxIter (initState minQ maxQ) with
      | error p =>
        obtain ⟨e', s⟩ := p
        dsimp only
        obtain ⟨ext, qf, hcalls, hlen, _, _⟩ :=
          (searchLoop_trace codec target tol maxIter (initState minQ maxQ)).2 e' s hres
        rw [hcalls]
        simpa [initState] using hlen
      | ok s =>
        dsimp only
        rw [finalize_calls]
        obtain ⟨ext, hcalls, hlen, _⟩ :=
          (searchLoop_trace codec target tol maxIter (initState minQ maxQ)).1 s hres
        rw [hcalls]
        simpa [initState] using hlen
  · intro s s1 hlow hlh hb
    obtain ⟨sz, hc, hcalls, hiter, hcase⟩ := loopBody_ok_shape codec target tol s s1 hb
    rcases hcase with ⟨_, hl, hh⟩ | ⟨_, hl, hh⟩ <;> omega

/-- C8 (witness): the synthetic-scenario run makes 6 ≤ 8 invocations, and
the first pass shrinks the interval [20, 95] to [20, 56]. -/
theorem C8_witness :
    (compress_pdf synthCodec true 1000000 500000 (mkRat 1 20) 20 95
      8).calls.length ≤ 8 ∧
    ((⟨20, 56, 1, none, some ⟨0, 57, 542000⟩, false, [0], [57]⟩ :
        LoopState).high + 1 -
      (⟨20, 56, 1, none, some ⟨0, 57, 542000⟩, false, [0], [57]⟩ :
        LoopState).low <
      (initState 20 95).high + 1 - (initState 20 95).low) :=
  ⟨(C8_iteration_bound synthCodec true 1000000 500000 (mkRat 1 20) 20 95 8).1,
   (C8_iteration_bound synthCodec true 1000000 500000 (mkRat 1 20) 20 95 8).2
     (initState 20 95) ⟨20, 56, 1, none, some ⟨0, 57, 542000⟩, false, [0], [57]⟩
     (by decide) (by decide) (by decide)⟩

/-- C9: finalization promotes the best candidate if present, else the
fallback, and fails with the no-candidate error only when the ledger is
empty; and on a valid budget with at least one iteration allowed, an input
larger than the target and a codec that succeeds on every invocation, that
error branch is unreachable. -/
theorem C9_finalization (codec : Codec) (inputSize target : Nat) (tol : ℚ)
    (minQ maxQ maxIter : Nat) :
    (∀ s b, s.best = some b → b.id ∈ s.live →
      (finalize s).result = .ok (b.size, s.reached) ∧
      (finalize s).output = some (.artifact b)) ∧
    (∀ s f, s.best = none → s.fallback = some f → f.id ∈ s.live →
      (finalize s).result = .ok (f.size, s.reached) ∧
      (finalize s).output = some (.artifact f)) ∧
    (∀ s : LoopState, s.best = none → s.fallback = none →
      (finalize s).result = .error .noCandidateProduced) ∧
    (0 < tol → tol < 1 → 1 ≤ minQ → maxQ ≤ 100 → minQ < maxQ →
      target < inputSize → 1 ≤ maxIter →
      (∀ q, ∃ sz, codec q = .ok sz) →
      (compress_pdf codec true inputSize target tol minQ maxQ maxIter).result ≠
        .error .noCandidateProduced) := by
  refine ⟨?_, ?_, ?_, ?_⟩
  · intro s b hb hlive
    rw [finalize_of_best s b hb hlive]
    exact ⟨rfl, rfl⟩
  · intro s f hb hf hlive
    rw [finalize_of_fallback s f hb hf hlive]
    exact ⟨rfl, rfl⟩
  · intro s hb hf
    rw [finalize_of_empty s hb hf]
  · intro htol0 htol1 hminQ hmaxQ hrange hsize hfuel hok
    rw [compress_pdf_search codec inputSize target tol minQ maxQ maxIter htol0
      htol1 hminQ hmaxQ hrange hsize]
    cases hres : searchLoop codec target tol maxIter (initState minQ maxQ) with
    | error p =>
      obtain ⟨e', s⟩ := p
      dsimp only
      simp
    | ok s =>
      dsimp only
      have hLive : LiveInv s :=
        searchLoop_inv codec target tol LiveInv
          (fun t t1 _ hP hb => loopBody_preserves_LiveInv codec target tol t t1 hP hb)
          maxIter (initState minQ maxQ) s (initState_LiveInv minQ maxQ) hres
      have hNE : s.best.isSome ∨ s.fallback.isSome :=
        searchLoop_ledger_nonempty codec target tol maxIter (initState minQ maxQ)
          s hfuel (by simp [initState]; omega) hres
      cases hbb : s.best with
      | some b =>
        rw [finalize_of_best s b hbb (hLive.1 b hbb).1]
        simp
      | none =>
        cases hff : s.fallback with
        | some f =>
          rw [finalize_of_fallback s f hbb hff ((hLive.2.1) f hff).1]
          simp
        | none =>
          rw [hbb, hff] at hNE
          simp at hNE

/-- C9 (witness): the synthetic scenario never reaches the no-candidate
error. -/
theorem C9_witness :
    (compress_pdf synthCodec true 1000000 500000 (mkRat 1 20) 20 95 8).result ≠
      .error .noCandidateProduced :=
  (C9_finalization synthCodec 1000000 500000 (mkRat 1 20) 20 95 8).2.2.2
    (by decide) (by decide) (by decide) (by decide) (by decide) (by decide)
    (by decide) (fun q => ⟨200000 + 6000 * q, rfl⟩)

/-- C10: on every valid budget and for every codec (and any input), the
quality values passed to the codec within a single search are pairwise
distinct and all lie within `[minQuality, maxQuality]`. -/
theorem C10_trial_qualities (codec : Codec) (inputExists : Bool)
    (inputSize target : Nat) (tol : ℚ) (minQ maxQ maxIter : Nat)
    (_htol0 : 0 < tol) (_htol1 : tol < 1) (hminQ : 1 ≤ minQ)
    (_hmaxQ : maxQ ≤ 100) (_hrange : minQ < maxQ) :
    (compress_pdf codec inputExists inputSize target tol minQ maxQ
      maxIter).calls.Nodup ∧
    ∀ q ∈ (compress_pdf codec inputExists inputSize target tol minQ maxQ
      maxIter).calls, minQ ≤ q ∧ q ≤ maxQ := by
  unfold compress_pdf
  split_ifs with h1 h2 h3 h4
  · exact ⟨List.nodup_nil, by simp⟩
  · exact ⟨List.nodup_nil, by simp⟩
  · exact ⟨List.nodup_nil, by simp⟩
  · exact ⟨List.nodup_nil, by simp⟩
  · obtain ⟨ext, hcalls, hnd, hbnd⟩ :=
      searchLoop_quality_bounds codec target tol maxIter (initState minQ maxQ)
        (by simp [initState]; omega)
    cases hres : searchLoop codec target tol maxIter (initState minQ maxQ) with
    | error p =>
      obtain ⟨e', s⟩ := p
      dsimp only
      rw [hres] at hcalls
      dsimp only [finalState] at hcalls
      rw [show (initState minQ maxQ).calls = [] from rfl, List.nil_append] at hcalls
      rw [hcalls]
      refine ⟨hnd, ?_⟩
      intro q hq
      have hb := hbnd q hq
      simp only [initState] at hb
      exact hb
    | ok s =>
      dsimp only
      rw [hres] at hcalls
      dsimp only [finalState] at hcalls
      rw [show (initState minQ maxQ).calls = [] from rfl, List.nil_append] at hcalls
      rw [finalize_calls, hcalls]
      refine ⟨hnd, ?_⟩
      intro q hq
      have hb := hbnd q hq
      simp only [initState] at hb
      exact hb

/-- C10 (witness): the synthetic-scenario trials 57, 38, 47, 52, 54, 55 are
pairwise distinct and inside [20, 95]. -/
theorem C10_witness :
    (compress_pdf synthCodec true 1000000 500000 (mkRat 1 20) 20 95
      8).calls.Nodup ∧
    ∀ q ∈ (compress_pdf synthCodec true 1000000 500000 (mkRat 1 20) 20 95
      8).calls, 20 ≤ q ∧ q ≤ 95 :=
  C10_trial_qualities synthCodec true 1000000 500000 (mkRat 1 20) 20 95 8
    (by decide) (by decide) (by decide) (by decide) (by decide)

/-- C4: for every codec — (i) once any passing candidate is retained
(`best` is set), a loop iteration never changes the fallback slot: offering
a failing candidate is a no-op; (ii) while no passing candidate was ever
retained, the fallback slot holds exactly the smallest size observed, and
every completed trial failed the ceiling; (iii) consequently, on a valid
budget, when every codec answer exceeds the ceiling, the promoted result is
the minimum-size trial observed and `reachedTarget` is false. -/
theorem C4_fallback_policy (codec : Codec) (inputSize target : Nat) (tol : ℚ)
    (minQ maxQ maxIter : Nat) :
    (∀ s s1 : LoopState, s.best.isSome → loopBody codec target tol s = .ok s1 →
      s1.fallback = s.fallback) ∧
    (∀ s1, searchLoop codec target tol maxIter (initState minQ maxQ) = .ok s1 →
      s1.best = none → s1.calls ≠ [] →
      (∀ q sz, q ∈ s1.calls → codec q = .ok sz → passes target tol sz = false) ∧
      ∃ f, s1.fallback = some f ∧
        (∃ q, q ∈ s1.calls ∧ codec q = .ok f.size) ∧
        (∀ q sz, q ∈ s1.calls → codec q = .ok sz → f.size ≤ sz)) ∧
    (0 < tol → tol < 1 → 1 ≤ minQ → maxQ ≤ 100 → minQ < maxQ →
      target < inputSize → 1 ≤ maxIter →
      (∀ q, ∃ sz, codec q = .ok sz ∧ passes target tol sz = false) →
      ∃ f : Cand,
        (compress_pdf codec true inputSize target tol minQ maxQ
          maxIter).result = .ok (f.size, false) ∧
        (∃ q, q ∈ (compress_pdf codec true inputSize target tol minQ maxQ
          maxIter).calls ∧ codec q = .ok f.size) ∧
        (∀ q sz, q ∈ (compress_pdf codec true inputSize target tol minQ maxQ
          maxIter).calls → codec q = .ok sz → f.size ≤ sz)) := by
  refine ⟨?_, ?_, ?_⟩
  · intro s s1 hsome hb
    obtain ⟨sz, hc, hcase⟩ := loopBody_ok_cases codec target tol s s1 hb
    rcases hcase with ⟨hp, hbb, rfl⟩ | ⟨hp, b, hbb, hlt, rfl⟩ | ⟨hp, b, hbb, hlt, rfl⟩ |
      ⟨hp, b, hbb, rfl⟩ | ⟨hp, hbb, hff, rfl⟩ | ⟨hp, hbb, f, hff, hlt, rfl⟩ |
      ⟨hp, hbb, f, hff, hlt, rfl⟩
    · simp [hbb] at hsome
    · rfl
    · rfl
    · rfl
    · simp [hbb] at hsome
    · simp [hbb] at hsome
    · simp [hbb] at hsome
  · intro s1 hres hbn hcne
    have hFM : FallbackMin codec target tol s1 :=
      searchLoop_inv codec target tol (FallbackMin codec target tol)
        (fun t t1 _ hP hb =>
          loopBody_preserves_FallbackMin codec target tol t t1 hP hb)
        maxIter (initState minQ maxQ) s1
        (initState_FallbackMin codec target tol minQ maxQ) hres
    obtain ⟨hAll, hcase2⟩ := hFM hbn
    refine ⟨hAll, ?_⟩
    rcases hcase2 with ⟨_, hce⟩ | hgood
    · exact absurd hce hcne
    · exact hgood
  · intro htol0 htol1 hminQ hmaxQ hrange hsize hfuel hallfail
    rw [compress_pdf_search codec inputSize target tol minQ maxQ maxIter htol0
      htol1 hminQ hmaxQ hrange hsize]
    cases hres : searchLoop codec target tol maxIter (initState minQ maxQ) with
    | error p =>
      obtain ⟨e', s⟩ := p
      exfalso
      obtain ⟨ext, qf, _, _, _, hcf⟩ :=
        (searchLoop_trace codec target tol maxIter (initState minQ maxQ)).2 e' s hres
      obtain ⟨sz, hsz, _⟩ := hallfail qf
      rw [hsz] at hcf
      cases hcf
    | ok s =>
      dsimp only
      have hallfail2 : ∀ q sz, codec q = .ok sz → passes target tol sz = false := by
        intro q sz hq
        obtain ⟨sz', hsz', hf⟩ := hallfail q
        rw [hq] at hsz'
        injection hsz' with hsz'
        rw [← hsz'] at hf
        exact hf
      have hbn : s.best = none :=
        searchLoop_inv codec target tol (fun t => t.best = none)
          (fun t t1 _ hP hb =>
            loopBody_preserves_best_none codec target tol t t1 hallfail2 hP hb)
          maxIter (initState minQ maxQ) s rfl hres
      have hrf : s.reached = false :=
        (searchLoop_inv codec target tol
          (fun t => t.best = none → t.reached = false)
          (fun t t1 _ hP hb =>
            loopBody_preserves_reached_false codec target tol t t1 hP hb)
          maxIter (initState minQ maxQ) s (fun _ => rfl) hres) hbn
      have hLive : LiveInv s :=
        searchLoop_inv codec target tol LiveInv
          (fun t t1 _ hP hb =>
            loopBody_preserves_LiveInv codec target tol t t1 hP hb)
          maxIter (initState minQ maxQ) s (initState_LiveInv minQ maxQ) hres
      have hNE : s.best.isSome ∨ s.fallback.isSome :=
        searchLoop_ledger_nonempty codec target tol maxIter (initState minQ maxQ)
          s hfuel (by simp [initState]; omega) hres
      have hffS : s.fallback.isSome := by
        rcases hNE with hx | hx
        · rw [hbn] at hx; simp at hx
        · exact hx
      obtain ⟨f, hff⟩ := Option.isSome_iff_exists.mp hffS
      have hFM : FallbackMin codec target tol s :=
        searchLoop_inv codec target tol (FallbackMin codec target tol)
          (fun t t1 _ hP hb =>
            loopBody_preserves_FallbackMin codec target tol t t1 hP hb)
          maxIter (initState minQ maxQ) s
          (initState_FallbackMin codec target tol minQ maxQ) hres
      obtain ⟨hAll, hcase2⟩ := hFM hbn
      have hgood : ∃ f', s.fallback = some f' ∧
          (∃ q, q ∈ s.calls ∧ codec q = .ok f'.size) ∧
          (∀ q sz, q ∈ s.calls → codec q = .ok sz → f'.size ≤ sz) := by
        rcases hcase2 with ⟨hfn, _⟩ | hgood
        · rw [hff] at hfn; cases hfn
        · exact hgood
      obtain ⟨f', hf', hex, hmin⟩ := hgood
      rw [hff] at hf'
      injection hf' with hf'
      subst hf'
      rw [finalize_of_fallback s f hbn hff ((hLive.2.1) f hff).1]
      dsimp only
      exact ⟨f, by rw [hrf], hex, hmin⟩

/-- C4 (witness): a codec that always answers 1000000 + quality (every
answer over the 525000 ceiling): freeze is exercised vacuously, and the
promoted result is the minimum over-ceiling trial with the flag false. -/
theorem C4_witness :
    ∃ f : Cand,
      (compress_pdf (fun q => .ok (1000000 + q)) true 1000000 500000
        (mkRat 1 20) 20 95 8).result = .ok (f.size, false) ∧
      (∃ q, q ∈ (compress_pdf (fun q => .ok (1000000 + q)) true 1000000 500000
        (mkRat 1 20) 20 95 8).calls ∧
        (fun q => (.ok (1000000 + q) : Except String Nat)) q = .ok f.size) ∧
      (∀ q sz, q ∈ (compress_pdf (fun q => .ok (1000000 + q)) true 1000000
        500000 (mkRat 1 20) 20 95 8).calls →
        (fun q => (.ok (1000000 + q) : Except String Nat)) q = .ok sz →
        f.size ≤ sz) :=
  (C4_fallback_policy (fun q => .ok (1000000 + q)) 1000000 500000 (mkRat 1 20)
    20 95 8).2.2 (by decide) (by decide) (by decide) (by decide) (by decide)
    (by decide) (by decide)
    (fun q => ⟨1000000 + q, rfl, by
      unfold passes
      rw [decide_eq_false_iff_not]
      rw [show ((mkRat 1 20).den : ℤ) = 20 from rfl,
        show (mkRat 1 20).num = 1 from rfl]
      push_cast
      omega⟩)

end ReducePdf
